import Mathlib

/-!
Verification development for a live-counter channel bot (src/index.js).
The definitions below shallowly embed the data model and the operations of
the source file: the statistic evaluator getCountForType, the configuration
store (a JS Map from guild id to a config array), the snapshot codec
(saveConfigs / loadConfigs), the provisioning handler (handleCounterSetup),
the teardown handler (handleCounterReset) and the reconciliation passes
(updateAllCounters / updateGuildCounters).
-/

/-- Presence status of a member as reported by the gateway:
one of online, idle, dnd, offline. A member may also have no
presence record at all, modelled by Option below. -/
inductive PresenceStatus where
  | online
  | idle
  | dnd
  | offline
deriving DecidableEq, Repr

/-- One member record of a membership snapshot: the bot flag
(m.user.bot), the assigned-role count (m.roles.cache.size) and the
optional presence (m.presence?.status). -/
structure Member where
  bot : Bool
  roleCount : Nat
  presence : Option PresenceStatus
deriving DecidableEq, Repr

/-- The seven counter kinds of COUNTER_TYPES in src/index.js. -/
inductive CounterKind where
  | members
  | bots
  | roles
  | onlineMembers
  | onlineBots
  | offlineMembers
  | offlineBots
deriving DecidableEq, Repr

/-- COUNTER_TYPES: the display label of each counter kind. -/
def COUNTER_TYPES : CounterKind → String
  | .members => "Total Members"
  | .bots => "Total Bots"
  | .roles => "Members with Roles"
  | .onlineMembers => "Online Members"
  | .onlineBots => "Online Bots"
  | .offlineMembers => "Offline Members"
  | .offlineBots => "Offline Bots"

/-- The JS test [..].includes(m.presence?.status) over
[online, idle, dnd]: true when the member has a presence whose status is
online, idle or dnd; false when the presence is absent. -/
def isOnline (m : Member) : Bool :=
  match m.presence with
  | some .online => true
  | some .idle => true
  | some .dnd => true
  | _ => false

/-- The JS test (!m.presence || m.presence.status === "offline"). -/
def isOffline (m : Member) : Bool :=
  match m.presence with
  | none => true
  | some s => s = .offline

/-- getCountForType of src/index.js: one filter pass over the fetched
membership snapshot, by counter kind. -/
def getCountForType (ms : List Member) : CounterKind → Nat
  | .members => (ms.filter (fun m => !m.bot)).length
  | .bots => (ms.filter (fun m => m.bot)).length
  | .roles => (ms.filter (fun m => !m.bot && m.roleCount > 1)).length
  | .onlineMembers => (ms.filter (fun m => !m.bot && isOnline m)).length
  | .onlineBots => (ms.filter (fun m => m.bot && isOnline m)).length
  | .offlineMembers => (ms.filter (fun m => !m.bot && isOffline m)).length
  | .offlineBots => (ms.filter (fun m => m.bot && isOffline m)).length

/-- Splitting a filter by a second boolean predicate partitions its count. -/
theorem length_filter_and_split (p q : Member → Bool) (ms : List Member) :
    (ms.filter (fun m => p m && q m)).length
      + (ms.filter (fun m => p m && !q m)).length
      = (ms.filter p).length := by
  induction ms with
  | nil => rfl
  | cons m t ih =>
    by_cases hp : p m
    · by_cases hq : q m
      · simp [List.filter, hp, hq, ih]
        omega
      · simp only [Bool.not_eq_true] at hq
        simp [List.filter, hp, hq, ih]
        omega
    · simp only [Bool.not_eq_true] at hp
      simp [List.filter, hp, ih]

/-- A member is offline exactly when it is not online. -/
theorem isOffline_eq_not_isOnline (m : Member) : isOffline m = !isOnline m := by
  rcases m with ⟨b, r, p⟩
  rcases p with _ | s
  · rfl
  · cases s <;> rfl

/-- Filtering by the bot flag partitions the snapshot. -/
theorem length_filter_bot_split (ms : List Member) :
    (ms.filter (fun m => !m.bot)).length + (ms.filter (fun m => m.bot)).length
      = ms.length := by
  induction ms with
  | nil => rfl
  | cons m t ih =>
    by_cases hb : m.bot
    · simp [List.filter, hb, ih]
      omega
    · simp only [Bool.not_eq_true] at hb
      simp [List.filter, hb, ih]
      omega

/-- C2: for every membership snapshot, getCountForType returns a count
(a Nat, hence a non-negative integer) no larger than the snapshot size
for every counter kind, and members + bots equals the snapshot size,
online-members + offline-members equals members, and
online-bots + offline-bots equals bots. -/
theorem getCountForType_bounds_and_sums (ms : List Member) :
    (∀ k : CounterKind, getCountForType ms k ≤ ms.length)
    ∧ getCountForType ms .members + getCountForType ms .bots = ms.length
    ∧ getCountForType ms .onlineMembers + getCountForType ms .offlineMembers
        = getCountForType ms .members
    ∧ getCountForType ms .onlineBots + getCountForType ms .offlineBots
        = getCountForType ms .bots := by
  refine ⟨fun k => ?_, ?_, ?_, ?_⟩
  · cases k <;> exact List.length_filter_le _ _
  · exact length_filter_bot_split ms
  · have h : ms.filter (fun m => !m.bot && isOffline m)
        = ms.filter (fun m => !m.bot && !isOnline m) := by
      apply List.filter_congr
      intro m _
      rw [isOffline_eq_not_isOnline]
    simp only [getCountForType, h]
    exact length_filter_and_split (fun m => !m.bot) isOnline ms
  · have h : ms.filter (fun m => m.bot && isOffline m)
        = ms.filter (fun m => m.bot && !isOnline m) := by
      apply List.filter_congr
      intro m _
      rw [isOffline_eq_not_isOnline]
    simp only [getCountForType, h]
    exact length_filter_and_split (fun m => m.bot) isOnline ms

/-- One provisioned counter as stored by handleCounterSetup:
{channelId, type, categoryId}. -/
structure CounterConfig where
  channelId : String
  type : CounterKind
  categoryId : String
deriving DecidableEq, Repr

abbrev GuildId := String

/-- The in-memory counterConfigs Map: an insertion-ordered association
list from guild id to its config array, with unique keys maintained by
the Map semantics of set and delete below. -/
abbrev Store := List (GuildId × List CounterConfig)

/-- Map.get: the config array of a guild, none when absent. -/
def Store.get : Store → GuildId → Option (List CounterConfig)
  | [], _ => none
  | (g, v) :: rest, gid => if g = gid then some v else Store.get rest gid

/-- Map.set: replace the value in place when the key exists, append a
new entry otherwise (JS Map insertion-order semantics). -/
def Store.set : Store → GuildId → List CounterConfig → Store
  | [], gid, v => [(gid, v)]
  | (g, w) :: rest, gid, v =>
      if g = gid then (gid, v) :: rest else (g, w) :: Store.set rest gid v

/-- Map.delete: remove the entry of a key. -/
def Store.erase : Store → GuildId → Store
  | [], _ => []
  | (g, w) :: rest, gid =>
      if g = gid then rest else (g, w) :: Store.erase rest gid

/-- The value under one guild key of the in-memory Map after a load:
the configs array of a conforming entry, or, for an object entry whose
truthy configs field is not a sequence, that field value stored as-is
(kept opaque here). -/
inductive StoredConfigs where
  | arr (configs : List CounterConfig)
  | raw (value : String)
deriving DecidableEq, Repr

/-- The counterConfigs Map as loadConfigs can leave it: guild id to the
stored value, which is a configs array except under a guild whose
loaded entry carried a truthy non-sequence configs field. -/
abbrev MapStore := List (GuildId × StoredConfigs)

/-- Map.get on the loaded store. -/
def MapStore.get : MapStore → GuildId → Option StoredConfigs
  | [], _ => none
  | (g, v) :: rest, gid => if g = gid then some v else MapStore.get rest gid

/-- Map.set on the loaded store. -/
def MapStore.set : MapStore → GuildId → StoredConfigs → MapStore
  | [], gid, v => [(gid, v)]
  | (g, w) :: rest, gid, v =>
      if g = gid then (gid, v) :: rest else (g, w) :: MapStore.set rest gid v

/-- The clean configuration store viewed as a loaded store. -/
def Store.toMap (s : Store) : MapStore :=
  s.map (fun e => (e.1, StoredConfigs.arr e.2))

/-- The per-guild value inside the persisted document, split by how the
load loop treats it: a JSON array (the legacy shape); an object whose
truthy configs field is a sequence (the new shape); an object whose
truthy configs field is not a sequence (that field is stored as-is); a
null or undefined value (reading guildData.configs throws a TypeError
into the function-level catch); and any other value (a primitive, or an
object whose configs field is falsy), which matches neither branch and
is skipped. -/
inductive GuildData where
  | legacy (configs : List CounterConfig)
  | modern (serverName : String) (configs : List CounterConfig)
  | modernRaw (serverName : String) (rawConfigs : String)
  | nullish
  | noConfigs
deriving DecidableEq, Repr

/-- The persisted document: JSON with an optional top-level
counterConfigs mapping (absent models a parsed document without that
key, for which loadConfigs leaves the store untouched). -/
structure Document where
  counterConfigs : Option (List (GuildId × GuildData))
deriving DecidableEq, Repr

/-- saveConfigs: serialize the store, resolving a server name per guild
via the guild cache lookup and falling back to the sentinel
"Unknown Server"; every entry is written in the new shape. -/
def saveConfigs (store : Store) (lookup : GuildId → Option String) : Document :=
  ⟨some (store.map (fun e =>
    (e.1, GuildData.modern
      (match lookup e.1 with
       | some name => name
       | none => "Unknown Server") e.2)))⟩

/-- The for-of loop of loadConfigs over Object.entries: an array value
and an object with a truthy sequence configs set the configs under the
guild; an object with a truthy non-sequence configs sets that value
as-is; a null or undefined value throws at the guildData.configs
access, so the catch block ends the load with the store as mutated so
far (the remaining entries are never processed); any other value
matches neither branch and is skipped. -/
def applyEntries (s : MapStore) : List (GuildId × GuildData) → MapStore
  | [] => s
  | (gid, .legacy cfgs) :: rest => applyEntries (s.set gid (.arr cfgs)) rest
  | (gid, .modern _ cfgs) :: rest => applyEntries (s.set gid (.arr cfgs)) rest
  | (gid, .modernRaw _ v) :: rest => applyEntries (s.set gid (.raw v)) rest
  | (_, .nullish) :: _ => s
  | (_, .noConfigs) :: rest => applyEntries s rest

/-- loadConfigs: an unreadable or unparsable file (doc = none) leaves
the store as it is; a parsed document without the counterConfigs key
also leaves it; otherwise the store is cleared and refilled from the
document entries (stopping early when an entry throws). -/
def loadConfigs (doc : Option Document) (store : MapStore) : MapStore :=
  match doc with
  | none => store
  | some d =>
    match d.counterConfigs with
    | none => store
    | some entries => applyEntries [] entries

/-- Setting a fresh key appends the entry at the end. -/
theorem MapStore.set_of_not_mem (s : MapStore) (gid : GuildId)
    (v : StoredConfigs) (h : gid ∉ s.map Prod.fst) :
    MapStore.set s gid v = s ++ [(gid, v)] := by
  induction s with
  | nil => rfl
  | cons e rest ih =>
    simp only [List.map_cons, List.mem_cons] at h
    push_neg at h
    cases e with
    | mk g w =>
      simp only [MapStore.set]
      have hne : ¬g = gid := fun hc => (by simpa using h.1 : ¬gid = g) hc.symm
      rw [if_neg hne]
      simp [ih h.2]

/-- Replaying the serialized entries of a store with pairwise distinct
guild ids on top of an accumulator whose keys are disjoint from them
appends the store to the accumulator. -/
theorem applyEntries_saveConfigs (lookup : GuildId → Option String) :
    ∀ (store : Store) (acc : MapStore), (store.map Prod.fst).Nodup →
    (∀ g ∈ store.map Prod.fst, g ∉ acc.map Prod.fst) →
    applyEntries acc ((saveConfigs store lookup).counterConfigs.getD [])
      = acc ++ Store.toMap store := by
  intro store
  induction store with
  | nil => intro acc _ _; simp [saveConfigs, applyEntries, Store.toMap]
  | cons e rest ih =>
    intro acc hnd hdisj
    cases e with
    | mk g cfgs =>
      simp only [List.map_cons, List.nodup_cons] at hnd
      have hg : g ∉ acc.map Prod.fst := hdisj g (by simp)
      have step : MapStore.set acc g (StoredConfigs.arr cfgs)
          = acc ++ [(g, StoredConfigs.arr cfgs)] :=
        MapStore.set_of_not_mem acc g (StoredConfigs.arr cfgs) hg
      have hdisj2 : ∀ g2 ∈ rest.map Prod.fst,
          g2 ∉ (acc ++ [(g, StoredConfigs.arr cfgs)]).map Prod.fst := by
        intro g2 hg2
        simp only [List.map_append, List.mem_append]
        push_neg
        refine ⟨hdisj g2 (by simp [hg2]), ?_⟩
        simp only [List.map_cons, List.map_nil, List.mem_singleton]
        intro hc
        exact hnd.1 (hc ▸ hg2)
      have hih := ih (acc ++ [(g, StoredConfigs.arr cfgs)]) hnd.2 hdisj2
      simp only [saveConfigs, Option.getD, List.map_cons, applyEntries] at *
      rw [step, hih]
      simp [Store.toMap]

/-- C3: for every configuration store with pairwise distinct guild ids
and every server-name lookup (including one that always falls back to
the Unknown sentinel), loading the document written by saveConfigs
reproduces exactly the original store: same communities in the same
order, each with the same sequence of configs; the labels do not affect
the result. -/
theorem loadConfigs_saveConfigs_roundtrip (store : Store)
    (lookup : GuildId → Option String) (s0 : MapStore)
    (hnd : (store.map Prod.fst).Nodup) :
    loadConfigs (some (saveConfigs store lookup)) s0 = Store.toMap store := by
  have h := applyEntries_saveConfigs lookup store [] hnd (by simp)
  simpa [loadConfigs, saveConfigs] using h

/-- Witness for the round-trip theorem at a concrete two-guild store and
a lookup that resolves no guild (Unknown sentinel everywhere). -/
theorem loadConfigs_saveConfigs_roundtrip_witness :
    loadConfigs (some (saveConfigs
      [("g1", [⟨"c1", .members, "k1"⟩]), ("g2", [])] (fun _ => none))) []
      = Store.toMap [("g1", [⟨"c1", .members, "k1"⟩]), ("g2", [])] :=
  loadConfigs_saveConfigs_roundtrip
    [("g1", [⟨"c1", .members, "k1"⟩]), ("g2", [])] (fun _ => none) []
    (by decide)

/-- The load loop processes a concatenation left to right, provided the
first part contains no throwing (null or undefined) entry. -/
theorem applyEntries_append_of_no_null :
    ∀ (xs : List (GuildId × GuildData)),
    (∀ e ∈ xs, e.2 ≠ GuildData.nullish) →
    ∀ (ys : List (GuildId × GuildData)) (s : MapStore),
    applyEntries s (xs ++ ys) = applyEntries (applyEntries s xs) ys := by
  intro xs
  induction xs with
  | nil => intro _ ys s; rfl
  | cons e rest ih =>
    intro h ys s
    have hrest : ∀ e2 ∈ rest, e2.2 ≠ GuildData.nullish :=
      fun e2 he2 => h e2 (List.mem_cons_of_mem e he2)
    rcases e with ⟨g, d⟩
    cases d with
    | legacy cfgs =>
      simp only [List.cons_append, applyEntries]
      exact ih hrest ys _
    | modern n cfgs =>
      simp only [List.cons_append, applyEntries]
      exact ih hrest ys _
    | modernRaw n v =>
      simp only [List.cons_append, applyEntries]
      exact ih hrest ys _
    | nullish =>
      exact absurd rfl (h (g, GuildData.nullish) (List.mem_cons_self _ _))
    | noConfigs =>
      simp only [List.cons_append, applyEntries]
      exact ih hrest ys _

/-- A legacy entry and a new-shape entry with the same configs behave
identically at any position of the load loop. -/
theorem applyEntries_legacy_eq_modern (g : GuildId) (name : String)
    (cfgs : List CounterConfig) (post : List (GuildId × GuildData)) :
    ∀ (pre : List (GuildId × GuildData)) (acc : MapStore),
    applyEntries acc (pre ++ (g, GuildData.legacy cfgs) :: post)
      = applyEntries acc (pre ++ (g, GuildData.modern name cfgs) :: post) := by
  intro pre
  induction pre with
  | nil => intro acc; rfl
  | cons e rest ih =>
    intro acc
    rcases e with ⟨g2, d⟩
    cases d <;> simp only [List.cons_append, applyEntries] <;>
      first
      | rfl
      | exact ih _

/-- An entry matching neither branch with a readable configs field is
skipped: the loop continues as if the entry were absent. -/
theorem applyEntries_noConfigs_skip (g : GuildId)
    (post : List (GuildId × GuildData)) :
    ∀ (pre : List (GuildId × GuildData)) (acc : MapStore),
    applyEntries acc (pre ++ (g, GuildData.noConfigs) :: post)
      = applyEntries acc (pre ++ post) := by
  intro pre
  induction pre with
  | nil => intro acc; rfl
  | cons e rest ih =>
    intro acc
    rcases e with ⟨g2, d⟩
    cases d <;> simp only [List.cons_append, applyEntries] <;>
      first
      | rfl
      | exact ih _

/-- A null or undefined entry throws: the loop ends there, leaving the
store exactly as after the preceding entries; later entries are lost. -/
theorem applyEntries_nullish_aborts (g : GuildId)
    (post : List (GuildId × GuildData)) :
    ∀ (pre : List (GuildId × GuildData)) (acc : MapStore),
    applyEntries acc (pre ++ (g, GuildData.nullish) :: post)
      = applyEntries acc pre := by
  intro pre
  induction pre with
  | nil => intro acc; rfl
  | cons e rest ih =>
    intro acc
    rcases e with ⟨g2, d⟩
    cases d <;> simp only [List.cons_append, applyEntries] <;>
      first
      | rfl
      | exact ih _

/-- Reading a key other than the one being set is unaffected. -/
theorem MapStore.get_set_ne (s : MapStore) (k : GuildId) (v : StoredConfigs)
    (g : GuildId) (h : k ≠ g) : (MapStore.set s k v).get g = s.get g := by
  induction s with
  | nil => simp [MapStore.set, MapStore.get, h]
  | cons e rest ih =>
    cases e with
    | mk g2 w =>
      by_cases h2 : g2 = k
      · subst h2
        simp [MapStore.set, MapStore.get, h]
      · simp only [MapStore.set, if_neg h2, MapStore.get]
        by_cases h3 : g2 = g
        · simp [h3]
        · simp [h3, ih]

/-- Reading the key just set yields the value set. -/
theorem MapStore.get_set_self (s : MapStore) (g : GuildId)
    (v : StoredConfigs) : (MapStore.set s g v).get g = some v := by
  induction s with
  | nil => simp [MapStore.set, MapStore.get]
  | cons e rest ih =>
    cases e with
    | mk g2 w =>
      by_cases h2 : g2 = g
      · subst h2
        simp [MapStore.set, MapStore.get]
      · simp [MapStore.set, MapStore.get, h2, ih]

/-- Replaying document entries never touches a guild id absent from the
entry list. -/
theorem applyEntries_get_not_mem :
    ∀ (es : List (GuildId × GuildData)) (acc : MapStore) (g : GuildId),
    g ∉ es.map Prod.fst → (applyEntries acc es).get g = acc.get g := by
  intro es
  induction es with
  | nil => intro acc g _; rfl
  | cons e rest ih =>
    intro acc g hg
    simp only [List.map_cons, List.mem_cons] at hg
    push_neg at hg
    rcases e with ⟨k, d⟩
    have hne : k ≠ g := fun hc => hg.1 hc.symm
    cases d with
    | legacy cfgs =>
      simp only [applyEntries]
      rw [ih _ g hg.2, MapStore.get_set_ne acc k _ g hne]
    | modern n cfgs =>
      simp only [applyEntries]
      rw [ih _ g hg.2, MapStore.get_set_ne acc k _ g hne]
    | modernRaw n v =>
      simp only [applyEntries]
      rw [ih _ g hg.2, MapStore.get_set_ne acc k _ g hne]
    | nullish => rfl
    | noConfigs =>
      simp only [applyEntries]
      exact ih _ g hg.2

/-- C10: loading a parseable document carrying the top-level
counterConfigs mapping replaces the store rather than merging: the
result does not depend on the prior store, any guild absent from the
document is absent from the result (so prior communities not in the
document are removed), and loading the same document twice equals
loading it once. -/
theorem loadConfigs_replaces (entries : List (GuildId × GuildData)) :
    (∀ s1 s2 : MapStore,
      loadConfigs (some ⟨some entries⟩) s1 = loadConfigs (some ⟨some entries⟩) s2)
    ∧ (∀ (s : MapStore) (g : GuildId), g ∉ entries.map Prod.fst →
        (loadConfigs (some ⟨some entries⟩) s).get g = none)
    ∧ (∀ s : MapStore,
        loadConfigs (some ⟨some entries⟩) (loadConfigs (some ⟨some entries⟩) s)
          = loadConfigs (some ⟨some entries⟩) s) := by
  refine ⟨fun s1 s2 => rfl, fun s g hg => ?_, fun s => rfl⟩
  simpa [loadConfigs] using applyEntries_get_not_mem entries [] g hg

/-- Witness for the replacement theorem: loading a document that maps
only guild a removes the pre-existing guild b from the store. -/
theorem loadConfigs_replaces_witness :
    (loadConfigs (some ⟨some [("a", GuildData.legacy [])]⟩)
        [("b", StoredConfigs.arr [⟨"c9", .bots, "k9"⟩])]).get "b" = none :=
  (loadConfigs_replaces [("a", GuildData.legacy [])]).2.1
    [("b", StoredConfigs.arr [⟨"c9", .bots, "k9"⟩])] "b" (by decide)

/-- C4 counterexample: a per-community entry matching neither shape is
not always skipped without error. A null entry value throws, so the
entries after it are never loaded: the document mapping g1 to null and
g2 to a legacy array loads differently from the document holding only
the g2 entry. And an object entry whose truthy configs field is not a
sequence is stored under its community as-is rather than skipped: its
document loads differently from the empty document. -/
theorem loadConfigs_nonconforming_not_skipped :
    loadConfigs (some ⟨some [("g1", GuildData.nullish),
        ("g2", GuildData.legacy [⟨"c1", .members, "k1"⟩])]⟩) []
      ≠ loadConfigs (some ⟨some
        [("g2", GuildData.legacy [⟨"c1", .members, "k1"⟩])]⟩) []
    ∧ loadConfigs (some ⟨some [("g3", GuildData.modernRaw "S" "x")]⟩) []
      ≠ loadConfigs (some ⟨some ([] : List (GuildId × GuildData))⟩) [] := by
  constructor <;> decide

/-- C4 (amended): a legacy-shape entry and a new-shape entry with the
same configs load identically in any document position and from any
prior store; an entry matching neither shape whose configs read is
falsy (a primitive, or an object without a truthy configs field) is
skipped without error, loading as if absent; a null or undefined entry
value throws at the configs access, aborting the load loop so the
store keeps exactly the entries processed before it; and an object
entry whose truthy configs value is not a sequence is stored under its
community as-is rather than skipped. -/
theorem loadConfigs_shape_behavior (pre post : List (GuildId × GuildData))
    (g : GuildId) (name v : String) (cfgs : List CounterConfig)
    (s0 : MapStore) :
    (loadConfigs (some ⟨some (pre ++ (g, GuildData.legacy cfgs) :: post)⟩) s0
      = loadConfigs (some ⟨some (pre ++ (g, GuildData.modern name cfgs) :: post)⟩) s0)
    ∧ (loadConfigs (some ⟨some (pre ++ (g, GuildData.noConfigs) :: post)⟩) s0
      = loadConfigs (some ⟨some (pre ++ post)⟩) s0)
    ∧ (loadConfigs (some ⟨some (pre ++ (g, GuildData.nullish) :: post)⟩) s0
      = loadConfigs (some ⟨some pre⟩) s0)
    ∧ ((∀ e ∈ pre, e.2 ≠ GuildData.nullish) → g ∉ post.map Prod.fst →
        (loadConfigs (some ⟨some (pre ++ (g, GuildData.modernRaw name v) :: post)⟩) s0).get g
          = some (StoredConfigs.raw v)) := by
  refine ⟨?_, ?_, ?_, ?_⟩
  · exact applyEntries_legacy_eq_modern g name cfgs post pre []
  · exact applyEntries_noConfigs_skip g post pre []
  · exact applyEntries_nullish_aborts g post pre []
  · intro h1 h2
    show (applyEntries []
        (pre ++ (g, GuildData.modernRaw name v) :: post)).get g
      = some (StoredConfigs.raw v)
    rw [applyEntries_append_of_no_null pre h1
      ((g, GuildData.modernRaw name v) :: post) []]
    show (applyEntries
        (MapStore.set (applyEntries [] pre) g (StoredConfigs.raw v)) post).get g
      = some (StoredConfigs.raw v)
    rw [applyEntries_get_not_mem post _ g h2]
    exact MapStore.get_set_self _ g _

/-- Witness for the amended load-shape theorem: a lone truthy
non-sequence configs entry ends up stored under its guild. -/
theorem loadConfigs_shape_behavior_witness :
    (loadConfigs (some ⟨some [("g3", GuildData.modernRaw "S" "x")]⟩)
        []).get "g3" = some (StoredConfigs.raw "x") :=
  (loadConfigs_shape_behavior [] [] "g3" "S" "x" [] []).2.2.2
    (by simp) (by simp)

/-- One rename issued by a reconcile pass (channel.setName). -/
structure RenameCall where
  channelId : String
  newName : String
deriving DecidableEq, Repr

/-- The target channel name computed by both reconcile loops:
the template COUNTER_TYPES[type] followed by a colon and the count. -/
def targetName (ms : List Member) (k : CounterKind) : String :=
  COUNTER_TYPES k ++ ": " ++ toString (getCountForType ms k)

/-- The channel cache of one guild: channel id to current channel name,
none when the channel no longer exists. -/
abbrev Channels := String → Option String

/-- The cache after a successful setName on one channel. -/
def setChannelName (ch : Channels) (id name : String) : Channels :=
  fun c => if c = id then some name else ch c

/-- The per-config reconcile loop shared verbatim by updateAllCounters
and updateGuildCounters in src/index.js: for each config in order, skip
silently when the channel is gone from the cache; otherwise fetch the
membership, recompute the count and issue a setName only when the
computed target name differs from the current name. Returns the channel
cache after the pass and the rename calls issued, in order. -/
def reconcileConfigs (ms : List Member) (ch : Channels) :
    List CounterConfig → Channels × List RenameCall
  | [] => (ch, [])
  | c :: rest =>
    match ch c.channelId with
    | none => reconcileConfigs ms ch rest
    | some name =>
      if name = targetName ms c.type then reconcileConfigs ms ch rest
      else
        let r := reconcileConfigs ms
          (setChannelName ch c.channelId (targetName ms c.type)) rest
        (r.1, ⟨c.channelId, targetName ms c.type⟩ :: r.2)

/-- The reconcile loop leaves cache entries outside the processed
channel ids untouched. -/
theorem reconcileConfigs_fst_not_mem (ms : List Member) :
    ∀ (cfgs : List CounterConfig) (ch : Channels) (id : String),
    id ∉ cfgs.map CounterConfig.channelId →
    (reconcileConfigs ms ch cfgs).1 id = ch id := by
  intro cfgs
  induction cfgs with
  | nil => intro ch id _; rfl
  | cons c rest ih =>
    intro ch id hid
    simp only [List.map_cons, List.mem_cons] at hid
    push_neg at hid
    cases hch : ch c.channelId with
    | none => simp only [reconcileConfigs, hch]; exact ih ch id hid.2
    | some name =>
      by_cases hn : name = targetName ms c.type
      · simp only [reconcileConfigs, hch, if_pos hn]
        exact ih ch id hid.2
      · simp only [reconcileConfigs, hch, if_neg hn]
        rw [ih _ id hid.2]
        simp [setChannelName, hid.1]

/-- The selection function describing which configs give rise to a
rename in a pass starting from cache ch. -/
def renameSel (ms : List Member) (ch : Channels) (c : CounterConfig) :
    Option RenameCall :=
  match ch c.channelId with
  | none => none
  | some name =>
    if name = targetName ms c.type then none
    else some ⟨c.channelId, targetName ms c.type⟩

/-- Under pairwise distinct channel ids, the rename calls of a pass are
exactly the configs whose cached name exists and differs from the
target, each renamed to its target, in config order. -/
theorem reconcileConfigs_snd_eq (ms : List Member) :
    ∀ (cfgs : List CounterConfig) (ch : Channels),
    (cfgs.map CounterConfig.channelId).Nodup →
    (reconcileConfigs ms ch cfgs).2 = cfgs.filterMap (renameSel ms ch) := by
  intro cfgs
  induction cfgs with
  | nil => intro ch _; rfl
  | cons c rest ih =>
    intro ch hnd
    simp only [List.map_cons, List.nodup_cons] at hnd
    cases hch : ch c.channelId with
    | none =>
      simp only [reconcileConfigs, hch, List.filterMap_cons, renameSel]
      exact ih ch hnd.2
    | some name =>
      by_cases hn : name = targetName ms c.type
      · simp only [reconcileConfigs, hch, if_pos hn, List.filterMap_cons,
          renameSel, hn, if_pos rfl]
        exact ih ch hnd.2
      · simp only [reconcileConfigs, hch, if_neg hn, List.filterMap_cons,
          renameSel, if_neg hn]
        have hcong : rest.filterMap
            (renameSel ms (setChannelName ch c.channelId (targetName ms c.type)))
            = rest.filterMap (renameSel ms ch) := by
          apply List.filterMap_congr
          intro c2 hc2
          have hne : c2.channelId ≠ c.channelId := by
            intro hc
            exact hnd.1 (hc ▸ List.mem_map_of_mem CounterConfig.channelId hc2)
          simp [renameSel, setChannelName, hne]
        rw [ih _ hnd.2, hcong]

/-- Under pairwise distinct channel ids, after a pass every config whose
channel exists carries exactly its target name, and a missing channel
stays missing. -/
theorem reconcileConfigs_fst_mem (ms : List Member) :
    ∀ (cfgs : List CounterConfig) (ch : Channels),
    (cfgs.map CounterConfig.channelId).Nodup →
    ∀ c ∈ cfgs, (reconcileConfigs ms ch cfgs).1 c.channelId
      = (ch c.channelId).map (fun _ => targetName ms c.type) := by
  intro cfgs
  induction cfgs with
  | nil => intro ch _ c hc; cases hc
  | cons c0 rest ih =>
    intro ch hnd c hc
    simp only [List.map_cons, List.nodup_cons] at hnd
    have hc0rest : c0.channelId ∉ rest.map CounterConfig.channelId := hnd.1
    rcases List.mem_cons.1 hc with hceq | hcrest
    · subst hceq
      cases hch : ch c.channelId with
      | none =>
        simp only [reconcileConfigs, hch]
        rw [reconcileConfigs_fst_not_mem ms rest ch c.channelId hc0rest, hch]
        rfl
      | some name =>
        by_cases hn : name = targetName ms c.type
        · simp only [reconcileConfigs, hch, if_pos hn]
          rw [reconcileConfigs_fst_not_mem ms rest ch c.channelId hc0rest, hch, hn]
          rfl
        · simp only [reconcileConfigs, hch, if_neg hn]
          rw [reconcileConfigs_fst_not_mem ms rest _ c.channelId hc0rest]
          simp [setChannelName]
    · have hne : c.channelId ≠ c0.channelId := by
        intro h
        exact hnd.1 (h ▸ List.mem_map_of_mem CounterConfig.channelId hcrest)
      cases hch : ch c0.channelId with
      | none =>
        simp only [reconcileConfigs, hch]
        exact ih ch hnd.2 c hcrest
      | some name =>
        by_cases hn : name = targetName ms c0.type
        · simp only [reconcileConfigs, hch, if_pos hn]
          exact ih ch hnd.2 c hcrest
        · simp only [reconcileConfigs, hch, if_neg hn]
          rw [ih _ hnd.2 c hcrest]
          simp [setChannelName, hne]

/-- A pass over a cache in which every existing configured channel
already carries its target name changes nothing and issues no rename. -/
theorem reconcileConfigs_stable (ms : List Member) :
    ∀ (cfgs : List CounterConfig) (ch : Channels),
    (∀ c ∈ cfgs, ∀ n, ch c.channelId = some n → n = targetName ms c.type) →
    reconcileConfigs ms ch cfgs = (ch, []) := by
  intro cfgs
  induction cfgs with
  | nil => intro ch _; rfl
  | cons c rest ih =>
    intro ch hstable
    cases hch : ch c.channelId with
    | none =>
      simp only [reconcileConfigs, hch]
      exact ih ch (fun c2 hc2 => hstable c2 (List.mem_cons_of_mem c hc2))
    | some name =>
      have hn : name = targetName ms c.type :=
        hstable c (List.mem_cons_self c rest) name hch
      simp only [reconcileConfigs, hch, if_pos hn]
      exact ih ch (fun c2 hc2 => hstable c2 (List.mem_cons_of_mem c hc2))

/-- C1: over a community whose configs have pairwise distinct channel
ids (the store invariant upheld by provisioning), a reconcile pass
issues a rename of a channel to its computed target name
COUNTER_TYPES[type] ++ ": " ++ count exactly when the channel is
present in the cache with a current name different from that target;
and a second pass from the cache the first pass produced, with the same
membership snapshot, changes nothing and issues zero rename calls. -/
theorem reconcileConfigs_rename_iff_and_idempotent (ms : List Member)
    (ch : Channels) (cfgs : List CounterConfig)
    (hnd : (cfgs.map CounterConfig.channelId).Nodup) :
    (∀ c ∈ cfgs,
      ((⟨c.channelId, targetName ms c.type⟩ : RenameCall)
          ∈ (reconcileConfigs ms ch cfgs).2
        ↔ ∃ n, ch c.channelId = some n ∧ n ≠ targetName ms c.type))
    ∧ reconcileConfigs ms (reconcileConfigs ms ch cfgs).1 cfgs
        = ((reconcileConfigs ms ch cfgs).1, []) := by
  constructor
  · intro c hc
    rw [reconcileConfigs_snd_eq ms cfgs ch hnd]
    constructor
    · intro hmem
      rcases List.mem_filterMap.1 hmem with ⟨c2, hc2, hsel⟩
      unfold renameSel at hsel
      split at hsel
      · cases hsel
      · rename_i name2 hch2
        split at hsel
        · cases hsel
        · rename_i hn2
          have hid : c2.channelId = c.channelId := congrArg RenameCall.channelId
            (Option.some.inj hsel)
          have hceq : c2 = c :=
            List.inj_on_of_nodup_map hnd hc2 hc hid
          subst hceq
          exact ⟨name2, hch2, hn2⟩
    · rintro ⟨n, hn, hne⟩
      apply List.mem_filterMap.2
      refine ⟨c, hc, ?_⟩
      simp [renameSel, hn, hne]
  · apply reconcileConfigs_stable
    intro c hc n hn
    have := reconcileConfigs_fst_mem ms cfgs ch hnd c hc
    rw [this] at hn
    cases hch : ch c.channelId with
    | none => rw [hch] at hn; cases hn
    | some name => rw [hch] at hn; exact (Option.some.inj hn).symm

/-- Witness for the reconcile theorem: a one-config community whose
channel shows a stale count; the hypothesis (distinct channel ids) and
both conclusions are discharged at this concrete input. -/
theorem reconcileConfigs_rename_iff_and_idempotent_witness :
    reconcileConfigs [⟨false, 1, none⟩, ⟨false, 0, some .online⟩]
        (reconcileConfigs [⟨false, 1, none⟩, ⟨false, 0, some .online⟩]
          (fun c => if c = "c1" then some "Total Members: 10" else none)
          [⟨"c1", .members, "k1"⟩]).1
        [⟨"c1", .members, "k1"⟩]
      = ((reconcileConfigs [⟨false, 1, none⟩, ⟨false, 0, some .online⟩]
          (fun c => if c = "c1" then some "Total Members: 10" else none)
          [⟨"c1", .members, "k1"⟩]).1, []) :=
  (reconcileConfigs_rename_iff_and_idempotent
    [⟨false, 1, none⟩, ⟨false, 0, some .online⟩]
    (fun c => if c = "c1" then some "Total Members: 10" else none)
    [⟨"c1", .members, "k1"⟩] (by decide)).2

/-- The cached state of one guild as the reconcile loops see it: the
membership snapshot guild.members.fetch returns and the channel cache. -/
structure GuildState where
  members : List Member
  channels : Channels

/-- The process state the sweeps touch: the counterConfigs store and
the client guild cache. -/
structure World where
  store : Store
  guilds : GuildId → Option GuildState

/-- Writing back one guild entry of the client cache. -/
def setGuildState (gs : GuildId → Option GuildState) (gid : GuildId)
    (s : GuildState) : GuildId → Option GuildState :=
  fun g => if g = gid then some s else gs g

/-- The body shared by both sweeps for one (guildId, configs) store
entry: skip when the guild is not in the client cache, otherwise run
the per-config reconcile loop and write the updated channel cache back. -/
def sweepGuildEntry (w : World) (gid : GuildId) (cfgs : List CounterConfig) :
    World × List RenameCall :=
  match w.guilds gid with
  | none => (w, [])
  | some gs =>
    let r := reconcileConfigs gs.members gs.channels cfgs
    ({ w with guilds := setGuildState w.guilds gid { gs with channels := r.1 } },
     r.2)

/-- The outer for-of loop of updateAllCounters over store entries. -/
def sweepEntries (w : World) :
    List (GuildId × List CounterConfig) → World × List RenameCall
  | [] => (w, [])
  | (gid, cfgs) :: rest =>
    let r1 := sweepGuildEntry w gid cfgs
    let r2 := sweepEntries r1.1 rest
    (r2.1, r1.2 ++ r2.2)

/-- updateAllCounters: the periodic full sweep over every entry of
counterConfigs. -/
def updateAllCounters (w : World) : World × List RenameCall :=
  sweepEntries w w.store

/-- updateGuildCounters: the debounced per-guild sweep; returns at once
when counterConfigs has no entry for the guild. -/
def updateGuildCounters (w : World) (gid : GuildId) : World × List RenameCall :=
  match w.store.get gid with
  | none => (w, [])
  | some cfgs => sweepGuildEntry w gid cfgs

/-- One sweep body keeps the store intact. -/
theorem sweepGuildEntry_store (w : World) (gid : GuildId)
    (cfgs : List CounterConfig) : (sweepGuildEntry w gid cfgs).1.store = w.store := by
  unfold sweepGuildEntry
  cases w.guilds gid <;> rfl

/-- The outer loop keeps the store intact. -/
theorem sweepEntries_store :
    ∀ (es : List (GuildId × List CounterConfig)) (w : World),
    (sweepEntries w es).1.store = w.store := by
  intro es
  induction es with
  | nil => intro w; rfl
  | cons e rest ih =>
    intro w
    cases e with
    | mk gid cfgs =>
      simp only [sweepEntries]
      rw [ih, sweepGuildEntry_store]

/-- C9: neither reconcile pass mutates the configuration store: after a
full sweep, and after a debounced per-guild sweep, the store is exactly
the store before the pass, so every community still maps to exactly the
config sequence it had (in particular a config whose channel is gone is
skipped in the loop and stays in the store). -/
theorem reconcile_passes_preserve_store (w : World) (gid : GuildId) :
    (updateAllCounters w).1.store = w.store
    ∧ (updateGuildCounters w gid).1.store = w.store
    ∧ (∀ g : GuildId, ((updateAllCounters w).1.store).get g = w.store.get g) := by
  refine ⟨sweepEntries_store w.store w, ?_, ?_⟩
  · unfold updateGuildCounters
    cases w.store.get gid with
    | none => rfl
    | some cfgs => exact sweepGuildEntry_store w gid cfgs
  · intro g
    unfold updateAllCounters
    rw [sweepEntries_store w.store w]

/-- The external collaborator calls handleCounterSetup awaits, in source
order: the category cache lookup by name (never throws), category
creation, the membership fetch behind getCountForType, and voice
channel creation (each may reject). The channel create receives the
computed display name. -/
structure SetupExt where
  findCategory : Option String
  createCategory : Except String String
  fetchMembers : Except String (List Member)
  createChannel : String → Except String String

/-- handleCounterSetup of src/index.js, store-relevant part: find or
create the category, fetch the membership and compute the count, create
the channel named COUNTER_TYPES[type] ++ ": " ++ count, and only then
append {channelId, type, categoryId} to the store entry of the guild
(creating it when absent). Any rejected await lands in the catch block,
which reports the failure and leaves the store untouched. -/
def setupSteps (ext : SetupExt) (kind : CounterKind) :
    Except String CounterConfig :=
  match (match ext.findCategory with
         | some c => Except.ok c
         | none => ext.createCategory) with
  | .error e => .error e
  | .ok categoryId =>
    match ext.fetchMembers with
    | .error e => .error e
    | .ok ms =>
      match ext.createChannel (targetName ms kind) with
      | .error e => .error e
      | .ok channelId => .ok ⟨channelId, kind, categoryId⟩

def handleCounterSetup (ext : SetupExt) (gid : GuildId) (kind : CounterKind)
    (store : Store) : Store × Except String CounterConfig :=
  match setupSteps ext kind with
  | .error e => (store, .error e)
  | .ok config =>
    (store.set gid ((store.get gid).getD [] ++ [config]), .ok config)

/-- C5: when any external call of counter setup fails before the config
append, the whole operation aborts and the configuration store is
exactly the store before the invocation. -/
theorem handleCounterSetup_failure_no_mutation (ext : SetupExt)
    (gid : GuildId) (kind : CounterKind) (store : Store) (e : String)
    (h : (handleCounterSetup ext gid kind store).2 = .error e) :
    (handleCounterSetup ext gid kind store).1 = store := by
  unfold handleCounterSetup at *
  cases hs : setupSteps ext kind with
  | error e2 => rfl
  | ok config => rw [hs] at h; cases h

/-- Witness for the setup abort theorem: a membership fetch that
rejects leaves a one-guild store unchanged. -/
theorem handleCounterSetup_failure_no_mutation_witness :
    (handleCounterSetup
      ⟨some "k1", Except.ok "k1", Except.error "fetch failed",
        fun _ => Except.ok "c2"⟩
      "g1" .members [("g1", [⟨"c1", .bots, "k1"⟩])]).1
      = [("g1", [⟨"c1", .bots, "k1"⟩])] :=
  handleCounterSetup_failure_no_mutation
    ⟨some "k1", Except.ok "k1", Except.error "fetch failed",
      fun _ => Except.ok "c2"⟩
    "g1" .members [("g1", [⟨"c1", .bots, "k1"⟩])] "fetch failed" (by rfl)

/-- An external delete call issued during teardown. -/
inductive DeleteCall where
  | channel (id : String)
  | category (id : String)
deriving DecidableEq, Repr

/-- The external state teardown consults: whether a counter channel is
still in the guild cache, whether its delete resolves, whether the
category is in the cache (with its child-channel count), and whether
the category delete resolves. -/
structure ResetExt where
  channelExists : String → Bool
  deleteChannelOk : String → Bool
  categoryChildCount : String → Option Nat
  deleteCategoryOk : String → Bool

/-- The category half of the per-config try block: when the category is
cached and has zero children its delete is issued; a rejected delete
throws into the catch block, adding one failed deletion. Returns the
failedDeletions increment and the calls issued. -/
def categoryAttempt (ext : ResetExt) (c : CounterConfig) :
    Nat × List DeleteCall :=
  match ext.categoryChildCount c.categoryId with
  | some 0 =>
    if ext.deleteCategoryOk c.categoryId then (0, [.category c.categoryId])
    else (1, [.category c.categoryId])
  | _ => (0, [])

/-- One iteration of the teardown loop of handleCounterReset: inside
one try block, delete the channel when it is still cached (a rejection
jumps to the catch, counting one failed deletion and skipping the
category), then attempt the category delete. Returns the increments of
deletedChannels and failedDeletions and the delete calls issued. -/
def resetStep (ext : ResetExt) (c : CounterConfig) :
    Nat × Nat × List DeleteCall :=
  if ext.channelExists c.channelId then
    if ext.deleteChannelOk c.channelId then
      let cat := categoryAttempt ext c
      (1, cat.1, .channel c.channelId :: cat.2)
    else
      (0, 1, [.channel c.channelId])
  else
    let cat := categoryAttempt ext c
    (0, cat.1, cat.2)

/-- The teardown loop over every config of the community; each
iteration has its own try/catch, so every config is processed. -/
def resetLoop (ext : ResetExt) : List CounterConfig → Nat × Nat × List DeleteCall
  | [] => (0, 0, [])
  | c :: rest =>
    let s := resetStep ext c
    let r := resetLoop ext rest
    (s.1 + r.1, s.2.1 + r.2.1, s.2.2 ++ r.2.2)

/-- The outcome of handleCounterReset: the store afterwards, the
reported counts, the delete calls issued, whether saveConfigs ran, and
whether the no-counters reply (rather than the reset-complete reply)
was sent; both replies are success outcomes. -/
structure ResetResult where
  store : Store
  deletedCount : Nat
  failedCount : Nat
  calls : List DeleteCall
  persisted : Bool
  nothingToReset : Bool
deriving DecidableEq, Repr

/-- handleCounterReset of src/index.js: when the guild has no entry or
an empty config array, reply no-counters and return at once; otherwise
run the teardown loop, then unconditionally delete the guild entry from
the store and persist. -/
def handleCounterReset (ext : ResetExt) (store : Store) (gid : GuildId) :
    ResetResult :=
  match store.get gid with
  | none => ⟨store, 0, 0, [], false, true⟩
  | some [] => ⟨store, 0, 0, [], false, true⟩
  | some (c :: rest) =>
    let r := resetLoop ext (c :: rest)
    ⟨store.erase gid, r.1, r.2.1, r.2.2, true, false⟩

/-- C8: teardown of a community whose store entry is absent or empty is
the no-counters success outcome: deletedCount = 0, failedCount = 0, no
external delete call, and the store untouched. -/
theorem handleCounterReset_empty (ext : ResetExt) (store : Store)
    (gid : GuildId)
    (h : store.get gid = none ∨ store.get gid = some []) :
    handleCounterReset ext store gid = ⟨store, 0, 0, [], false, true⟩ := by
  unfold handleCounterReset
  rcases h with h | h <;> rw [h]

/-- Witness for the empty-teardown theorem at the empty store. -/
theorem handleCounterReset_empty_witness :
    handleCounterReset
      ⟨fun _ => true, fun _ => true, fun _ => some 0, fun _ => true⟩
      [] "g1" = ⟨[], 0, 0, [], false, true⟩ :=
  handleCounterReset_empty
    ⟨fun _ => true, fun _ => true, fun _ => some 0, fun _ => true⟩
    [] "g1" (Or.inl rfl)

/-- The three-counter scenario community of the spec. -/
def resetScenarioConfigs : List CounterConfig :=
  [⟨"c1", .members, "k1"⟩, ⟨"c2", .bots, "k2"⟩, ⟨"c3", .roles, "k3"⟩]

/-- External state for the scenario: every channel cached, the delete
of channel c2 rejects, every category still has a child, every category
delete would succeed. -/
def resetScenarioExt : ResetExt :=
  ⟨fun _ => true, fun c => c != "c2", fun _ => some 1, fun _ => true⟩

/-- C6 counterexample: a teardown run on a community whose entry maps
to the empty config array returns early: the entry stays in the store
and nothing is persisted, refuting the claim for every run. -/
theorem handleCounterReset_empty_entry_not_removed :
    (handleCounterReset resetScenarioExt [("g", [])] "g").store = [("g", [])]
    ∧ (handleCounterReset resetScenarioExt [("g", [])] "g").persisted = false := by
  constructor <;> rfl

/-- C6 (amended): in the three-config scenario with exactly one channel
deletion failing and every other delete succeeding, teardown reports
deletedCount = 2 and failedCount = 1; and every teardown run on a
community with a nonempty config list removes the community entry from
the store and persists, regardless of per-channel failures. -/
theorem handleCounterReset_counts_and_clears :
    ((handleCounterReset resetScenarioExt
        [("g", resetScenarioConfigs)] "g").deletedCount = 2
      ∧ (handleCounterReset resetScenarioExt
        [("g", resetScenarioConfigs)] "g").failedCount = 1)
    ∧ (∀ (ext : ResetExt) (store : Store) (gid : GuildId)
        (c : CounterConfig) (rest : List CounterConfig),
        store.get gid = some (c :: rest) →
        (handleCounterReset ext store gid).store = store.erase gid
        ∧ (handleCounterReset ext store gid).persisted = true) := by
  refine ⟨⟨by decide, by decide⟩, ?_⟩
  intro ext store gid c rest h
  unfold handleCounterReset
  rw [h]
  exact ⟨rfl, rfl⟩

/-- Witness for the teardown theorem at the scenario input: the entry
is removed and the store persisted. -/
theorem handleCounterReset_counts_and_clears_witness :
    (handleCounterReset resetScenarioExt
        [("g", resetScenarioConfigs)] "g").store
      = Store.erase [("g", resetScenarioConfigs)] "g"
    ∧ (handleCounterReset resetScenarioExt
        [("g", resetScenarioConfigs)] "g").persisted = true :=
  handleCounterReset_counts_and_clears.2 resetScenarioExt
    [("g", resetScenarioConfigs)] "g" ⟨"c1", .members, "k1"⟩
    [⟨"c2", .bots, "k2"⟩, ⟨"c3", .roles, "k3"⟩] (by decide)

/-- External state refuting category-deletion independence: the channel
is cached but its delete rejects, while its category is cached with
zero children and its delete would succeed. -/
def stubbornChannelExt : ResetExt :=
  ⟨fun _ => true, fun _ => false, fun _ => some 0, fun _ => true⟩

/-- C7 counterexample: although the category of the single config
exists with zero child channels, the teardown run issues no category
delete call, because the rejected channel delete jumps to the catch
block first: category deletion is not attempted independently of the
channel deletion outcome. -/
theorem handleCounterReset_category_skipped_on_channel_failure :
    (stubbornChannelExt.channelExists "c1" = true
      ∧ stubbornChannelExt.deleteChannelOk "c1" = false
      ∧ stubbornChannelExt.categoryChildCount "k1" = some 0
      ∧ stubbornChannelExt.deleteCategoryOk "k1" = true)
    ∧ DeleteCall.category "k1" ∉
        (handleCounterReset stubbornChannelExt
          [("g", [⟨"c1", .members, "k1"⟩])] "g").calls := by
  exact ⟨⟨rfl, rfl, rfl, rfl⟩, by decide⟩

/-- C7 (amended): in every teardown run, per config: the channel delete
call is issued exactly when the channel is still cached; the category
delete call is issued exactly when the category is cached with zero
child channels and the channel part did not throw (channel absent or
its delete succeeded); a config whose cached channel fails to delete
contributes exactly one failed deletion, no deleted channel and no
category call; and the loop output over a community is the per-config
output followed by the output for the remaining configs, so a failure
never stops processing of the rest. -/
theorem resetStep_loop_behavior (ext : ResetExt) (c : CounterConfig)
    (rest : List CounterConfig) :
    (DeleteCall.channel c.channelId ∈ (resetStep ext c).2.2
        ↔ ext.channelExists c.channelId = true)
    ∧ (DeleteCall.category c.categoryId ∈ (resetStep ext c).2.2
        ↔ (ext.categoryChildCount c.categoryId = some 0
            ∧ (ext.channelExists c.channelId = false
                ∨ ext.deleteChannelOk c.channelId = true)))
    ∧ (ext.channelExists c.channelId = true →
        ext.deleteChannelOk c.channelId = false →
        resetStep ext c = (0, 1, [.channel c.channelId]))
    ∧ resetLoop ext (c :: rest)
        = ((resetStep ext c).1 + (resetLoop ext rest).1,
           (resetStep ext c).2.1 + (resetLoop ext rest).2.1,
           (resetStep ext c).2.2 ++ (resetLoop ext rest).2.2) := by
  have hcat : ∀ d : DeleteCall, d ∈ (categoryAttempt ext c).2
      ↔ (d = .category c.categoryId
          ∧ ext.categoryChildCount c.categoryId = some 0) := by
    intro d
    unfold categoryAttempt
    cases hcc : ext.categoryChildCount c.categoryId with
    | none => simp
    | some n =>
      cases n with
      | zero =>
        by_cases hdel : ext.deleteCategoryOk c.categoryId <;> simp [hdel]
      | succ k => simp
  refine ⟨?_, ?_, ?_, rfl⟩
  · by_cases hex : ext.channelExists c.channelId
    · by_cases hok : ext.deleteChannelOk c.channelId
      · simp [resetStep, hex, hok]
      · simp [resetStep, hex, hok]
    · simp [resetStep, hex, hcat]
  · by_cases hex : ext.channelExists c.channelId
    · by_cases hok : ext.deleteChannelOk c.channelId
      · simp [resetStep, hex, hok, hcat]
      · simp [resetStep, hex, hok]
    · simp [resetStep, hex, hcat]
  · intro hex hok
    simp [resetStep, hex, hok]

/-- Witness for the teardown per-config theorem: a config whose cached
channel delete rejects yields exactly one failed deletion and only the
channel call. -/
theorem resetStep_loop_behavior_witness :
    resetStep stubbornChannelExt ⟨"c1", .members, "k1"⟩
      = (0, 1, [.channel "c1"]) :=
  (resetStep_loop_behavior stubbornChannelExt ⟨"c1", .members, "k1"⟩ []).2.2.1
    rfl rfl
